import Mathlib

/-!
Verification of the settlement and aggregation engine of `app.py`
(mahjong league settlement tool).

The embedding below translates the computational core of the source:

* `apply_rounding` — the score-rounding function (`apply_rounding` in the
  source).  Python's built-in `round` performs round-half-to-even; the
  float division `points / 100.0` is modelled exactly by integer
  arithmetic (the tie cases `points ≡ 50 (mod 100)` are exactly
  representable as doubles, so rational semantics agrees with the float
  semantics on the tie behaviour).
* `settlement` — the per-round settlement (`settlement` in the source).
  Python dicts are modelled as association lists in insertion order; the
  stable descending sort `sorted(..., key=score, reverse=True)` is
  modelled by a stable merge sort with the relation `b.2 ≤ a.2`.  The
  list indexing `uma[ranks[pid] - 1]`, which can raise `IndexError`, is
  modelled with `Option`: `none` models the raised exception.
* `record_results` — the rows inserted into the `results` table by the
  round-entry form submission (yakuman count and yakitori flag are stored
  with each row).
* `summaryRow`, `summarySorted`, `summaryRanked` — the per-player
  aggregation block of the results tab (`groupby`, per-rank counts,
  sums, the sort by `pt合計` then `収支合計(円)` both descending, and the
  `順位` column `range(1, len+1)`).  Pandas `round` on the sum columns is
  round-half-to-even, modelled by `qRoundHalfEven`.

Floating point arithmetic of the source is modelled by exact rational
arithmetic throughout.
-/

/-- Room configuration as produced by `get_room` in the source: the
columns of the `rooms` table that the engine reads (identification and
timestamp columns are omitted, the engine never reads them). -/
structure Room where
  start_points : Int
  target_points : Int
  rate_per_1000 : ℚ
  uma1 : ℚ
  uma2 : ℚ
  uma3 : ℚ
  uma4 : ℚ
  rounding : String
  oka_mode : String
  oka_pt : ℚ
  oka_yen : ℚ
deriving Repr, DecidableEq

/-- Round-half-to-even of `p / 100`, the behaviour of Python's
`round(p / 100.0)` on an integer `p` (scores are small enough for the
float quotient to round correctly). -/
def round_half_even_div100 (p : Int) : Int :=
  let q := Int.fdiv p 100
  let r := p - 100 * q
  if r < 50 then q
  else if 50 < r then q + 1
  else if q % 2 = 0 then q else q + 1

/-- `apply_rounding` from the source: rounding of a raw score to
100-point granularity.  `//` of Python is floor division (`Int.fdiv`);
any mode string other than `none`/`floor`/`ceil` falls through to the
`round` branch, exactly as in the source. -/
def apply_rounding (points : Int) (mode : String) : Int :=
  if mode = "none" then points
  else if mode = "floor" then (Int.fdiv points 100) * 100
  else if mode = "ceil" then (Int.fdiv (points + 99) 100) * 100
  else (round_half_even_div100 points) * 100

/-- Pair every element with its position, starting at `i` (the shape of
Python's `enumerate`). -/
def idxFrom {α : Type} : Nat → List α → List (Nat × α)
  | _, [] => []
  | i, x :: xs => (i, x) :: idxFrom (i + 1) xs

/-- The comparison used by `sorted(rounded.items(), key=score,
reverse=True)`: descending by score, stable on ties. -/
def scoreDesc (a b : String × Int) : Bool := decide (b.2 ≤ a.2)

/-- Rank assignment of `settlement`: sort the rounded scores descending
(stably) and give the player at position `i` rank `i + 1`. -/
def rankAssign (rounded : List (String × Int)) : List (String × Nat) :=
  (idxFrom 0 (rounded.mergeSort scoreDesc)).map (fun p => (p.2.1, p.1 + 1))

/-- The rank-bonus table `uma = [room["uma1"], ..., room["uma4"]]`. -/
def umaList (room : Room) : List ℚ :=
  [room.uma1, room.uma2, room.uma3, room.uma4]

/-- One iteration of the settlement loop body for player `x`:
`base_pt = (pts - target) / 1000.0`, `uma_pt = uma[ranks[pid] - 1]` when
`target != start` else `0.0`, returning the `(point_pts, cash)` entries.
`none` models the `IndexError` raised by `uma[ranks[pid] - 1]` when the
rank exceeds 4. -/
def playerCalc (room : Room) (ranks : List (String × Nat)) (x : String × Int) :
    Option ((String × ℚ) × (String × ℚ)) := do
  let r := (List.lookup x.1 ranks).getD 0
  let uma_pt ← if room.target_points ≠ room.start_points
               then (umaList room).get? (r - 1) else some (0 : ℚ)
  let pt : ℚ := ((x.2 - room.target_points : ℤ) : ℚ) / 1000 + uma_pt
  pure ((x.1, pt), (x.1, pt * room.rate_per_1000))

/-- The settlement loop over `rounded.items()`, aborting at the first
raised exception. -/
def calcAll (room : Room) (ranks : List (String × Nat)) :
    List (String × Int) → Option (List ((String × ℚ) × (String × ℚ)))
  | [] => some []
  | x :: xs => do
      let y ← playerCalc room ranks x
      let ys ← calcAll room ranks xs
      pure (y :: ys)

/-- `settlement(room, finals)` from the source.  Output, in order:
`point_pts`, `ranks`, `rounded_finals`, `cash`, each an association list
keyed like the Python dicts.  `none` models an uncaught exception. -/
def settlement (room : Room) (finals : List (String × Int)) :
    Option (List (String × ℚ) × List (String × Nat) ×
            List (String × Int) × List (String × ℚ)) := do
  let rounded := finals.map (fun x => (x.1, apply_rounding x.2 room.rounding))
  let ranks := rankAssign rounded
  let pcs ← calcAll room ranks rounded
  pure (pcs.map Prod.fst, ranks, rounded, pcs.map Prod.snd)

/-- The point value the settlement loop computes for player `x` when no
exception is raised: base points plus the rank bonus, the latter only
when `target != start`. -/
def ptOf (room : Room) (ranks : List (String × Nat)) (x : String × Int) : ℚ :=
  ((x.2 - room.target_points : ℤ) : ℚ) / 1000 +
  (if room.target_points ≠ room.start_points
   then (umaList room).getD ((List.lookup x.1 ranks).getD 0 - 1) 0 else 0)

/-- The rounded-score list `rounded` of `settlement`. -/
def roundedOf (room : Room) (finals : List (String × Int)) :
    List (String × Int) :=
  finals.map (fun x => (x.1, apply_rounding x.2 room.rounding))

/-- One row of the `results` table as inserted by the round-entry form
submission. -/
structure StoredResult where
  player_id : String
  final_points : Int
  rank : Nat
  point_pt : ℚ
  net_cash : ℚ
  yakuman : Int
  yakitori : Int
deriving Repr, DecidableEq

/-- The form-submission block: run `settlement` and build one `results`
row per player of `finals`, storing the entered yakuman count and
yakitori flag verbatim alongside the settlement output. -/
def record_results (room : Room) (finals : List (String × Int))
    (ykm ytr : String → Int) : Option (List StoredResult) :=
  (settlement room finals).map (fun out =>
    finals.map (fun x =>
      { player_id := x.1
        final_points := (List.lookup x.1 out.2.2.1).getD 0
        rank := (List.lookup x.1 out.2.1).getD 0
        point_pt := (List.lookup x.1 out.1).getD 0
        net_cash := (List.lookup x.1 out.2.2.2).getD 0
        yakuman := ykm x.1
        yakitori := ytr x.1 }))

/-- One row of the joined result frame that the results tab aggregates
(`df_hanchan_join`): the columns read by the summary block. -/
structure ResultRow where
  player : String
  rank : Nat
  point_pt : ℚ
  net_cash : ℚ
  yakuman : Int
  yakitori : Int
deriving Repr, DecidableEq

/-- Round-half-to-even of a rational to an integer: the behaviour of
numpy/pandas `round` (ties to the even integer). -/
def qRoundHalfEven (x : ℚ) : ℤ :=
  let f := Rat.floor x
  if x - f < 1 / 2 then f
  else if (1 : ℚ) / 2 < x - f then f + 1
  else if f % 2 = 0 then f else f + 1

/-- `.round(0)` of a rational column entry. -/
def qround0 (x : ℚ) : ℚ := (qRoundHalfEven x : ℚ)

/-- `.round(2)` of a rational column entry. -/
def qround2 (x : ℚ) : ℚ := (qRoundHalfEven (x * 100) : ℚ) / 100

/-- The group of `groupby("display_name")` for one player name. -/
def rowsOf (rows : List ResultRow) (name : String) : List ResultRow :=
  rows.filter (fun r => r.player = name)

/-- The group keys of `groupby("display_name")`, sorted ascending as
pandas does. -/
def groupNames (rows : List ResultRow) : List String :=
  ((rows.map (fun r => r.player)).dedup).mergeSort (fun a b => decide (a ≤ b))

/-- One row of the summary frame: the columns the summary block computes
for one player (mean columns, which the ranking never reads, are
derivable from the sums and counts and are omitted). -/
structure SummaryRow where
  name : String
  count : Nat
  c1 : Nat
  c2 : Nat
  c3 : Nat
  c4 : Nat
  cashSum : ℚ
  ptSum : ℚ
  yakumanSum : Int
  yakitoriSum : Int
deriving Repr, DecidableEq

/-- The aggregates of one `groupby` group: round count, per-rank counts,
`収支合計(円) = sum(net_cash).round(0)`, `pt合計 = sum(point_pt).round(2)`,
and the yakuman / yakitori sums. -/
def summaryRow (rows : List ResultRow) (name : String) : SummaryRow :=
  let g := rowsOf rows name
  { name := name
    count := g.length
    c1 := g.countP (fun r => decide (r.rank = 1))
    c2 := g.countP (fun r => decide (r.rank = 2))
    c3 := g.countP (fun r => decide (r.rank = 3))
    c4 := g.countP (fun r => decide (r.rank = 4))
    cashSum := qround0 ((g.map (fun r => r.net_cash)).sum)
    ptSum := qround2 ((g.map (fun r => r.point_pt)).sum)
    yakumanSum := (g.map (fun r => r.yakuman)).sum
    yakitoriSum := (g.map (fun r => r.yakitori)).sum }

/-- The unsorted summary frame, one row per group key. -/
def summaries (rows : List ResultRow) : List SummaryRow :=
  (groupNames rows).map (summaryRow rows)

/-- The comparison of `sort_values(["pt合計", "収支合計(円)"],
ascending=[False, False])`: lexicographic, both keys descending. -/
def summaryDesc (a b : SummaryRow) : Bool :=
  decide (b.ptSum < a.ptSum ∨ (a.ptSum = b.ptSum ∧ b.cashSum ≤ a.cashSum))

/-- The sorted summary frame. -/
def summarySorted (rows : List ResultRow) : List SummaryRow :=
  (summaries rows).mergeSort summaryDesc

/-- The displayed summary: `summary.insert(0, "順位", range(1, len+1))` —
the row at sorted position `i` gets display rank `i + 1`. -/
def summaryRanked (rows : List ResultRow) : List (Nat × SummaryRow) :=
  (idxFrom 0 (summarySorted rows)).map (fun p => (p.1 + 1, p.2))

/-! ### Concrete example inputs used by the closed theorems -/

/-- A room whose target equals its start score (the default 25000 →
25000 configuration), spec example bonus table and rate. -/
def exRoomEq : Room :=
  { start_points := 25000, target_points := 25000, rate_per_1000 := 100
    uma1 := 10, uma2 := 5, uma3 := -5, uma4 := -10, rounding := "none"
    oka_mode := "none", oka_pt := 0, oka_yen := 0 }

/-- A room whose target differs from its start score, so the rank bonus
applies. -/
def exRoomNe : Room :=
  { start_points := 30000, target_points := 25000, rate_per_1000 := 100
    uma1 := 10, uma2 := 5, uma3 := -5, uma4 := -10, rounding := "none"
    oka_mode := "none", oka_pt := 0, oka_yen := 0 }

/-- `exRoomNe` with the top-bonus (OKA) fields set to points mode,
value 5. -/
def exRoomOka : Room :=
  { start_points := 30000, target_points := 25000, rate_per_1000 := 100
    uma1 := 10, uma2 := 5, uma3 := -5, uma4 := -10, rounding := "none"
    oka_mode := "points", oka_pt := 5, oka_yen := 0 }

/-- The four-player score map of the spec's point-formula check. -/
def exFinals4 : List (String × Int) :=
  [("A", 35000), ("B", 26000), ("C", 24000), ("D", 15000)]

/-- A three-player score map. -/
def exFinals3 : List (String × Int) :=
  [("A", 35000), ("B", 26000), ("C", 24000)]

/-- A five-player score map. -/
def exFinals5 : List (String × Int) :=
  [("A", 35000), ("B", 26000), ("C", 24000), ("D", 15000), ("E", 20000)]

/-- Two aggregation input rows that are tied on every ranking metric. -/
def exRowsTied : List ResultRow :=
  [{ player := "A", rank := 1, point_pt := 10, net_cash := 1000,
     yakuman := 0, yakitori := 0 },
   { player := "B", rank := 1, point_pt := 10, net_cash := 1000,
     yakuman := 0, yakitori := 0 }]


set_option maxRecDepth 100000

/-! ### Association-list and indexing lemmas -/

theorem lookup_mem {α β : Type} [BEq α] [LawfulBEq α] {a : α} {b : β} :
    ∀ {l : List (α × β)}, List.lookup a l = some b → (a, b) ∈ l := by
  intro l
  induction l with
  | nil => intro h; simp [List.lookup] at h
  | cons x xs ih =>
    intro h
    rw [List.lookup] at h
    by_cases hax : a == x.1
    · simp [hax] at h
      have : a = x.1 := eq_of_beq hax
      subst this
      subst h
      exact List.mem_cons_self _ _
    · simp [hax] at h
      exact List.mem_cons_of_mem _ (ih h)

theorem lookup_eq_some_of_mem {α β : Type} [BEq α] [LawfulBEq α] {a : α} {b : β} :
    ∀ {l : List (α × β)}, (l.map Prod.fst).Nodup → (a, b) ∈ l →
      List.lookup a l = some b := by
  intro l
  induction l with
  | nil => intro _ h; simp at h
  | cons x xs ih =>
    intro hnd hm
    rw [List.map_cons, List.nodup_cons] at hnd
    rcases List.mem_cons.mp hm with h | h
    · subst h
      simp [List.lookup]
    · have hne : a ≠ x.1 := by
        intro he
        exact hnd.1 (he ▸ (List.mem_map_of_mem Prod.fst h))
      rw [List.lookup]
      have : (a == x.1) = false := beq_false_of_ne hne
      simp [this]
      exact ih hnd.2 h

theorem assoc_value_unique {α β : Type} {a : α} {b c : β} :
    ∀ {l : List (α × β)}, (l.map Prod.fst).Nodup → (a, b) ∈ l → (a, c) ∈ l →
      b = c := by
  intro l
  induction l with
  | nil => intro _ h; simp at h
  | cons x xs ih =>
    intro hnd hb hc
    rw [List.map_cons, List.nodup_cons] at hnd
    rcases List.mem_cons.mp hb with h1 | h1 <;> rcases List.mem_cons.mp hc with h2 | h2
    · cases h1
      exact ((Prod.mk.injEq _ _ _ _).mp h2).2.symm
    · cases h1
      exact absurd (List.mem_map_of_mem Prod.fst h2) hnd.1
    · cases h2
      exact absurd (List.mem_map_of_mem Prod.fst h1) hnd.1
    · exact ih hnd.2 h1 h2

theorem idxFrom_map_snd {α : Type} : ∀ (i : Nat) (l : List α),
    (idxFrom i l).map Prod.snd = l := by
  intro i l
  induction l generalizing i with
  | nil => rfl
  | cons x xs ih => simp [idxFrom, ih]

theorem idxFrom_map_fst {α : Type} : ∀ (i : Nat) (l : List α),
    (idxFrom i l).map Prod.fst = List.range' i l.length := by
  intro i l
  induction l generalizing i with
  | nil => rfl
  | cons x xs ih => simp [idxFrom, ih, List.range'_succ]

theorem mem_idxFrom {α : Type} {p : Nat × α} : ∀ {i : Nat} {l : List α},
    p ∈ idxFrom i l ↔ ∃ j : Fin l.length, p = (i + j, l.get j) := by
  intro i l
  induction l generalizing i with
  | nil => simp [idxFrom]
  | cons x xs ih =>
    constructor
    · intro h
      rcases List.mem_cons.mp h with h | h
      · exact ⟨⟨0, Nat.succ_pos _⟩, by simpa using h⟩
      · rcases ih.mp h with ⟨j, hj⟩
        refine ⟨⟨j + 1, Nat.succ_lt_succ j.isLt⟩, ?_⟩
        simpa [Nat.add_assoc, Nat.add_comm 1 j] using hj
    · rintro ⟨⟨j, hj⟩, rfl⟩
      match j, hj with
      | 0, _ => simp [idxFrom]
      | j + 1, hj =>
        refine List.mem_cons_of_mem _ (ih.mpr ⟨⟨j, Nat.lt_of_succ_lt_succ hj⟩, ?_⟩)
        simp [Nat.add_assoc, Nat.add_comm 1 j]

/-! ### Rank-assignment lemmas -/

theorem scoreDesc_trans : ∀ (a b c : String × Int),
    scoreDesc a b = true → scoreDesc b c = true → scoreDesc a c = true := by
  intro a b c hab hbc
  simp only [scoreDesc, decide_eq_true_eq] at *
  omega

theorem scoreDesc_total : ∀ (a b : String × Int),
    (scoreDesc a b || scoreDesc b a) = true := by
  intro a b
  simp only [scoreDesc, Bool.or_eq_true, decide_eq_true_eq]
  omega

theorem rankAssign_map_fst_perm (l : List (String × Int)) :
    ((rankAssign l).map Prod.fst).Perm (l.map Prod.fst) := by
  have h1 : (rankAssign l).map Prod.fst
      = (l.mergeSort scoreDesc).map Prod.fst := by
    rw [rankAssign, List.map_map]
    have : (Prod.fst ∘ fun p : Nat × (String × Int) => (p.2.1, p.1 + 1))
        = Prod.fst ∘ Prod.snd := rfl
    rw [this, ← List.map_map, idxFrom_map_snd]
  rw [h1]
  exact (List.mergeSort_perm l scoreDesc).map Prod.fst

theorem rankAssign_map_snd (l : List (String × Int)) :
    (rankAssign l).map Prod.snd = List.range' 1 l.length := by
  rw [rankAssign, List.map_map]
  have h1 : (Prod.snd ∘ fun p : Nat × (String × Int) => (p.2.1, p.1 + 1))
      = (fun n => n + 1) ∘ Prod.fst := rfl
  rw [h1, ← List.map_map, idxFrom_map_fst, List.length_mergeSort]
  have h2 : ∀ (n i : Nat), (List.range' i n).map (fun m => m + 1)
      = List.range' (i + 1) n := by
    intro n
    induction n with
    | zero => intro i; rfl
    | succ k ih => intro i; simp [List.range'_succ, ih]
  rw [h2]

theorem mem_rankAssign {p : String} {r : Nat} {l : List (String × Int)} :
    (p, r) ∈ rankAssign l ↔
      ∃ j : Fin (l.mergeSort scoreDesc).length,
        ((l.mergeSort scoreDesc).get j).1 = p ∧ r = j + 1 := by
  rw [rankAssign]
  constructor
  · intro h
    rcases List.mem_map.mp h with ⟨q, hq, he⟩
    rcases mem_idxFrom.mp hq with ⟨j, rfl⟩
    have h1 := ((Prod.mk.injEq _ _ _ _).mp he).1
    have h2 := ((Prod.mk.injEq _ _ _ _).mp he).2
    exact ⟨j, h1, by omega⟩
  · rintro ⟨j, hp, rfl⟩
    refine List.mem_map.mpr
      ⟨(0 + j, (l.mergeSort scoreDesc).get j), mem_idxFrom.mpr ⟨j, rfl⟩, ?_⟩
    simp only [Prod.mk.injEq]
    exact ⟨hp, by omega⟩

theorem mem_rankAssign_bounds {p : String} {r : Nat} {l : List (String × Int)}
    (h : (p, r) ∈ rankAssign l) : 1 ≤ r ∧ r ≤ l.length := by
  rcases mem_rankAssign.mp h with ⟨j, -, hr⟩
  have hj : (j : Nat) < l.length :=
    Nat.lt_of_lt_of_eq j.isLt (List.length_mergeSort l)
  omega

/-! ### Settlement shape lemmas -/

theorem umaList_get?_eq (room : Room) (n : Nat) (h : n < 4) :
    (umaList room).get? n = some ((umaList room).getD n 0) := by
  match n, h with
  | 0, _ => rfl
  | 1, _ => rfl
  | 2, _ => rfl
  | 3, _ => rfl

theorem playerCalc_eq (room : Room) (ranks : List (String × Nat))
    (x : String × Int)
    (h : (List.lookup x.1 ranks).getD 0 ≤ 4 ∨
         room.target_points = room.start_points) :
    playerCalc room ranks x =
      some ((x.1, ptOf room ranks x),
            (x.1, ptOf room ranks x * room.rate_per_1000)) := by
  by_cases ha : room.target_points = room.start_points
  · simp [playerCalc, ptOf, ha]
  · have hr : (List.lookup x.1 ranks).getD 0 ≤ 4 := h.resolve_right ha
    have hlt : (List.lookup x.1 ranks).getD 0 - 1 < 4 := by omega
    have hne : room.target_points ≠ room.start_points := ha
    simp only [playerCalc, ptOf, if_pos hne]
    rw [umaList_get?_eq room _ hlt]
    rfl

theorem calcAll_eq (room : Room) (ranks : List (String × Nat)) :
    ∀ (xs : List (String × Int)),
      (∀ x ∈ xs, (List.lookup x.1 ranks).getD 0 ≤ 4 ∨
        room.target_points = room.start_points) →
      calcAll room ranks xs =
        some (xs.map (fun x => ((x.1, ptOf room ranks x),
              (x.1, ptOf room ranks x * room.rate_per_1000)))) := by
  intro xs
  induction xs with
  | nil => intro _; rfl
  | cons x xs ih =>
    intro h
    rw [calcAll, playerCalc_eq room ranks x (h x (List.mem_cons_self _ _)),
      ih (fun y hy => h y (List.mem_cons_of_mem _ hy))]
    rfl

/-- `settlement` succeeds and its four outputs have the stated closed
forms whenever no rank exceeds the bonus table, i.e. when there are at
most four players or the bonus is disabled (`target == start`). -/
theorem map_pair_fst {A B C : Type} (l : List A) (u : A → B) (v : A → C) :
    (l.map (fun x => (u x, v x))).map Prod.fst = l.map u := by
  rw [List.map_map]
  rfl

theorem map_pair_snd {A B C : Type} (l : List A) (u : A → B) (v : A → C) :
    (l.map (fun x => (u x, v x))).map Prod.snd = l.map v := by
  rw [List.map_map]
  rfl

theorem settlement_eq (room : Room) (finals : List (String × Int))
    (h : finals.length ≤ 4 ∨ room.target_points = room.start_points) :
    settlement room finals =
      some ((roundedOf room finals).map
              (fun x => (x.1, ptOf room (rankAssign (roundedOf room finals)) x)),
            rankAssign (roundedOf room finals),
            roundedOf room finals,
            (roundedOf room finals).map
              (fun x => (x.1, ptOf room (rankAssign (roundedOf room finals)) x *
                room.rate_per_1000))) := by
  have hcond : ∀ x ∈ roundedOf room finals,
      (List.lookup x.1 (rankAssign (roundedOf room finals))).getD 0 ≤ 4 ∨
      room.target_points = room.start_points := by
    intro x hx
    rcases h with h | h
    · left
      cases hl : List.lookup x.1 (rankAssign (roundedOf room finals)) with
      | none => simp
      | some r =>
        have hm := lookup_mem hl
        have hb := (mem_rankAssign_bounds hm).2
        have : (roundedOf room finals).length = finals.length := by
          simp [roundedOf]
        simp only [Option.getD_some]
        omega
    · right; exact h
  have hro : List.map (fun x => (x.1, apply_rounding x.2 room.rounding)) finals
      = roundedOf room finals := rfl
  calc settlement room finals
      = some (((roundedOf room finals).map (fun x =>
            ((x.1, ptOf room (rankAssign (roundedOf room finals)) x),
             (x.1, ptOf room (rankAssign (roundedOf room finals)) x *
               room.rate_per_1000)))).map Prod.fst,
          rankAssign (roundedOf room finals), roundedOf room finals,
          ((roundedOf room finals).map (fun x =>
            ((x.1, ptOf room (rankAssign (roundedOf room finals)) x),
             (x.1, ptOf room (rankAssign (roundedOf room finals)) x *
               room.rate_per_1000)))).map Prod.snd) := by
        rw [settlement, hro,
          calcAll_eq room (rankAssign (roundedOf room finals))
            (roundedOf room finals) hcond]
        rfl
    _ = _ := by rw [map_pair_fst, map_pair_snd]

/-! ### Rounding-mode facts -/

theorem rhe_spec (x : Int) :
    (100 * round_half_even_div100 x - x).natAbs ≤ 50 ∧
    ((100 * round_half_even_div100 x - x).natAbs = 50 →
      round_half_even_div100 x % 2 = 0) := by
  have hf : Int.fdiv x 100 = x / 100 := Int.fdiv_eq_ediv x (by norm_num)
  simp only [round_half_even_div100, hf]
  split_ifs <;> constructor <;> omega

theorem rhe_mul100 (q : Int) : round_half_even_div100 (q * 100) = q := by
  have hf : Int.fdiv (q * 100) 100 = (q * 100) / 100 :=
    Int.fdiv_eq_ediv _ (by norm_num)
  simp only [round_half_even_div100, hf]
  split_ifs <;> omega

/-- C5 (counterexample): a raw score of 50 is an exact tie between the
multiples 0 and 100; ties-away-from-zero demands 100, but the source
(Python's banker-rounding `round`) returns 0. -/
theorem claim_C5_counterexample :
    apply_rounding 50 "round" = 0 ∧ apply_rounding 50 "round" ≠ 100 := by
  decide

/-- C5 (amended): for every integer score, mode `round` returns a
multiple of 100 at distance at most 50 from the score, and an exact tie
(distance exactly 50) is resolved to the even quotient — round half to
even (Python `round` semantics), not away from zero. -/
theorem claim_C5 (x : Int) :
    ∃ q : Int, apply_rounding x "round" = 100 * q ∧
      (100 * q - x).natAbs ≤ 50 ∧
      ((100 * q - x).natAbs = 50 → q % 2 = 0) := by
  refine ⟨round_half_even_div100 x, ?_, (rhe_spec x).1, (rhe_spec x).2⟩
  rw [show apply_rounding x "round" = round_half_even_div100 x * 100 from rfl,
    Int.mul_comm]

/-- C5 witness: the amended statement evaluated at the tie score 150
(quotient 1.5 rounds to the even quotient 2). -/
theorem claim_C5_witness :
    ∃ q : Int, apply_rounding 150 "round" = 100 * q ∧
      (100 * q - 150).natAbs ≤ 50 ∧
      ((100 * q - 150).natAbs = 50 → q % 2 = 0) :=
  claim_C5 150

/-- C7 (confirmed): `apply_rounding` is idempotent in each of the four
recognized modes. -/
theorem claim_C7 (x : Int) (mode : String)
    (h : mode ∈ (["none", "round", "floor", "ceil"] : List String)) :
    apply_rounding (apply_rounding x mode) mode = apply_rounding x mode := by
  have hf : ∀ y : Int, Int.fdiv y 100 = y / 100 :=
    fun y => Int.fdiv_eq_ediv y (by norm_num)
  simp only [List.mem_cons, List.mem_singleton, List.not_mem_nil, or_false] at h
  rcases h with rfl | rfl | rfl | rfl
  · rfl
  · show round_half_even_div100 (round_half_even_div100 x * 100) * 100
      = round_half_even_div100 x * 100
    rw [rhe_mul100]
  · show Int.fdiv (Int.fdiv x 100 * 100) 100 * 100 = Int.fdiv x 100 * 100
    simp only [hf]
    omega
  · show Int.fdiv (Int.fdiv (x + 99) 100 * 100 + 99) 100 * 100
      = Int.fdiv (x + 99) 100 * 100
    simp only [hf]
    omega

/-- C7 witness: idempotence at score 123, mode `round`. -/
theorem claim_C7_witness :
    "round" ∈ (["none", "round", "floor", "ceil"] : List String) ∧
    apply_rounding (apply_rounding 123 "round") "round"
      = apply_rounding 123 "round" :=
  ⟨by decide, claim_C7 123 "round" (by decide)⟩

/-! ### Settlement claims -/

/-- C1 (counterexample): the spec's own point-formula configuration
(`targetScore = 25000`, the default `startScore = 25000`,
`rankBonus = [10, 5, -5, -10]`) yields 10 points for the top player A,
not the claimed `(35000 - 25000)/1000 + 10 = 20`: the rank bonus is not
added when `targetScore = startScore`. -/
theorem claim_C1_counterexample :
    (settlement exRoomEq exFinals4).bind (fun out => List.lookup "A" out.1)
      = some 10 ∧
    (10 : ℚ) ≠ ((35000 - 25000 : ℤ) : ℚ) / 1000 + 10 := by
  with_unfolding_all decide

/-- C1 (amended): for every room configuration and four-player input
with distinct players, settlement succeeds and each player's points are
the base points `(normalizedScore - targetScore)/1000` plus the rank
bonus `rankBonus[rank-1]` — the bonus being added only when
`targetScore ≠ startScore`, and omitted when they are equal. -/
theorem claim_C1 (room : Room) (finals : List (String × Int))
    (hnd : (finals.map Prod.fst).Nodup) (hlen : finals.length = 4) :
    ∃ pts ranks rounded cash,
      settlement room finals = some (pts, ranks, rounded, cash) ∧
      ∀ pid sc r, (pid, sc) ∈ rounded → (pid, r) ∈ ranks →
        (pid, ((sc - room.target_points : ℤ) : ℚ) / 1000 +
          (if room.target_points ≠ room.start_points
           then (umaList room).getD (r - 1) 0 else 0)) ∈ pts := by
  refine ⟨_, _, _, _, settlement_eq room finals (Or.inl (by omega)), ?_⟩
  intro pid sc r hsc hr
  have hkeys : (roundedOf room finals).map Prod.fst = finals.map Prod.fst :=
    map_pair_fst finals _ _
  have hndr : ((roundedOf room finals).map Prod.fst).Nodup := by
    rw [hkeys]; exact hnd
  have hnda : ((rankAssign (roundedOf room finals)).map Prod.fst).Nodup :=
    ((rankAssign_map_fst_perm _).nodup_iff).mpr hndr
  have hlook : List.lookup pid (rankAssign (roundedOf room finals)) = some r :=
    lookup_eq_some_of_mem hnda hr
  refine List.mem_map.mpr ⟨(pid, sc), hsc, ?_⟩
  simp only [ptOf, hlook, Option.getD_some]

/-- C1 witness: the amended statement at the spec's scores in a room
with `startScore = 30000 ≠ targetScore = 25000`. -/
theorem claim_C1_witness :
    (exFinals4.map Prod.fst).Nodup ∧ exFinals4.length = 4 ∧
    (∃ pts ranks rounded cash,
      settlement exRoomNe exFinals4 = some (pts, ranks, rounded, cash) ∧
      ∀ pid sc r, (pid, sc) ∈ rounded → (pid, r) ∈ ranks →
        (pid, ((sc - exRoomNe.target_points : ℤ) : ℚ) / 1000 +
          (if exRoomNe.target_points ≠ exRoomNe.start_points
           then (umaList exRoomNe).getD (r - 1) 0 else 0)) ∈ pts) :=
  ⟨by decide, by decide, claim_C1 exRoomNe exFinals4 (by decide) (by decide)⟩

/-- C2 (counterexample): with the top-bonus fields set to points mode
and value 5, the rank-1 player A gets 20 points — exactly the same as
with no top bonus, not 20 + 5: the OKA fields are stored only and never
used. -/
theorem claim_C2_counterexample :
    (settlement exRoomOka exFinals4).bind (fun out => List.lookup "A" out.1)
      = some 20 ∧
    (settlement exRoomNe exFinals4).bind (fun out => List.lookup "A" out.1)
      = some 20 ∧
    (20 : ℚ) ≠ 20 + 5 := by
  with_unfolding_all decide

/-- C2 (amended): the top-bonus (OKA) configuration fields are dead to
the settlement computation: changing `oka_mode`, `oka_pt` and `oka_yen`
arbitrarily leaves the entire settlement output unchanged — no bonus is
ever added to the rank-1 player's points or cash. -/
theorem playerCalc_fields (room1 room2 : Room) (ranks : List (String × Nat))
    (ht : room1.target_points = room2.target_points)
    (hs : room1.start_points = room2.start_points)
    (hu : umaList room1 = umaList room2)
    (hr : room1.rate_per_1000 = room2.rate_per_1000) (x : String × Int) :
    playerCalc room1 ranks x = playerCalc room2 ranks x := by
  simp only [playerCalc, ht, hs, hu, hr]

theorem calcAll_fields (room1 room2 : Room) (ranks : List (String × Nat))
    (ht : room1.target_points = room2.target_points)
    (hs : room1.start_points = room2.start_points)
    (hu : umaList room1 = umaList room2)
    (hr : room1.rate_per_1000 = room2.rate_per_1000) :
    ∀ xs, calcAll room1 ranks xs = calcAll room2 ranks xs := by
  intro xs
  induction xs with
  | nil => rfl
  | cons x xs ih =>
    simp only [calcAll, playerCalc_fields room1 room2 ranks ht hs hu hr x, ih]

theorem claim_C2 (room : Room) (finals : List (String × Int))
    (m : String) (v w : ℚ) :
    settlement { room with oka_mode := m, oka_pt := v, oka_yen := w } finals
      = settlement room finals := by
  simp only [settlement]
  rw [calcAll_fields { room with oka_mode := m, oka_pt := v, oka_yen := w }
    room _ rfl rfl rfl rfl]

/-- C3 (counterexample): entering 2 yakuman and the yakitori flag for
the rank-1 player A records those event values verbatim, but A's stored
points stay at the bonus-free value 20 = (35000-25000)/1000 + 10 — no
event bonus of any kind is folded into points (indeed no event-bonus
rate exists in the room configuration at all). -/
theorem claim_C3_counterexample :
    (record_results exRoomNe exFinals4
        (fun s => if s = "A" then 2 else 0)
        (fun s => if s = "A" then 1 else 0)).map
      (List.map (fun r => (r.player_id, r.point_pt, r.yakuman, r.yakitori)))
      = some [("A", 20, 2, 1), ("B", 6, 0, 0), ("C", -6, 0, 0),
              ("D", -20, 0, 0)] := by
  with_unfolding_all decide

/-- C3 (amended): the per-player event data (yakuman counts, yakitori
flags) entered with a round are stored verbatim in the result records
but contribute nothing to points or cash: the stored `point_pt` and
`net_cash` (and ranks and rounded scores) are identical for any two
event inputs. -/
theorem claim_C3 (room : Room) (finals : List (String × Int))
    (ykm ykm2 ytr ytr2 : String → Int) :
    (record_results room finals ykm ytr).map
        (List.map (fun r =>
          (r.player_id, r.final_points, r.rank, r.point_pt, r.net_cash)))
      = (record_results room finals ykm2 ytr2).map
        (List.map (fun r =>
          (r.player_id, r.final_points, r.rank, r.point_pt, r.net_cash))) ∧
    (∀ rs, record_results room finals ykm ytr = some rs →
      ∀ r ∈ rs, r.yakuman = ykm r.player_id ∧ r.yakitori = ytr r.player_id) := by
  constructor
  · cases hs : settlement room finals with
    | none => simp [record_results, hs]
    | some out =>
      simp only [record_results, hs, Option.map_some', Option.map_map,
        List.map_map]
      rfl
  · intro rs hrs r hr
    cases hs : settlement room finals with
    | none => rw [record_results, hs] at hrs; simp at hrs
    | some out =>
      rw [record_results, hs] at hrs
      simp only [Option.map_some', Option.some.injEq] at hrs
      subst hrs
      rcases List.mem_map.mp hr with ⟨x, hx, rfl⟩
      exact ⟨rfl, rfl⟩

/-- C3 witness: the amended statement at the spec's scores comparing
yakuman input 2-for-A against 0, yakitori flag for A against none. -/
theorem claim_C3_witness :
    ((record_results exRoomNe exFinals4
        (fun s => if s = "A" then 2 else 0)
        (fun s => if s = "A" then 1 else 0)).map
        (List.map (fun r =>
          (r.player_id, r.final_points, r.rank, r.point_pt, r.net_cash)))
      = (record_results exRoomNe exFinals4 (fun _ => 0) (fun _ => 0)).map
        (List.map (fun r =>
          (r.player_id, r.final_points, r.rank, r.point_pt, r.net_cash)))) ∧
    (∀ rs, record_results exRoomNe exFinals4
        (fun s => if s = "A" then 2 else 0)
        (fun s => if s = "A" then 1 else 0) = some rs →
      ∀ r ∈ rs, r.yakuman = (if r.player_id = "A" then 2 else 0) ∧
        r.yakitori = (if r.player_id = "A" then 1 else 0)) :=
  claim_C3 exRoomNe exFinals4
    (fun s => if s = "A" then 2 else 0) (fun _ => 0)
    (fun s => if s = "A" then 1 else 0) (fun _ => 0)

/-- C4 (counterexample): a three-entry score map is settled without any
error — player A receives rank 1 and the computation returns a result,
so no `InvalidRoundSize` failure exists. -/
theorem claim_C4_counterexample :
    (settlement exRoomNe exFinals3).bind (fun out => List.lookup "A" out.2.1)
      = some 1 := by
  with_unfolding_all decide

/-- C4 (amended): the settlement operation performs no round-size
validation at all.  A 3-entry map produces a result; a 5-entry map
produces a result when `targetScore = startScore`, and when
`targetScore ≠ startScore` it fails — but with an index error on the
4-entry rank-bonus table (rank 5 reads `uma[4]`), not with an
`InvalidRoundSize` error. -/
theorem claim_C4 :
    (settlement exRoomNe exFinals3).isSome = true ∧
    (settlement exRoomEq exFinals5).isSome = true ∧
    (settlement exRoomNe exFinals5).isNone = true := by
  with_unfolding_all decide

/-- C10 (counterexample): a five-player input with distinct players and
the recognized rounding mode `none` makes settlement fail (the rank-5
player's bonus lookup `uma[4]` is out of range because
`targetScore ≠ startScore` enables the bonus), so settlement does not
return a result for every non-empty input map. -/
theorem claim_C10_counterexample :
    exFinals5 ≠ [] ∧ (exFinals5.map Prod.fst).Nodup ∧
    exRoomNe.rounding ∈ (["none", "round", "floor", "ceil"] : List String) ∧
    (settlement exRoomNe exFinals5).isNone = true := by
  with_unfolding_all decide

/-- C10 (amended): for every non-empty score map of distinct players
and every configuration, settlement returns without error with ranks a
permutation of {1..n} and all four outputs keyed exactly like the
input, provided additionally that the map has at most four entries or
`targetScore = startScore` (otherwise the rank-bonus lookup fails). -/
theorem claim_C10 (room : Room) (finals : List (String × Int))
    (hne : finals ≠ []) (hnd : (finals.map Prod.fst).Nodup)
    (hrec : room.rounding ∈ (["none", "round", "floor", "ceil"] : List String))
    (hok : finals.length ≤ 4 ∨ room.target_points = room.start_points) :
    ∃ pts ranks rounded cash,
      settlement room finals = some (pts, ranks, rounded, cash) ∧
      pts.map Prod.fst = finals.map Prod.fst ∧
      (ranks.map Prod.fst).Perm (finals.map Prod.fst) ∧
      rounded.map Prod.fst = finals.map Prod.fst ∧
      cash.map Prod.fst = finals.map Prod.fst ∧
      (ranks.map Prod.snd).Perm (List.range' 1 finals.length) := by
  have hkeys : (roundedOf room finals).map Prod.fst = finals.map Prod.fst :=
    map_pair_fst finals _ _
  refine ⟨_, _, _, _, settlement_eq room finals hok, ?_, ?_, ?_, ?_, ?_⟩
  · rw [map_pair_fst, ← hkeys]
  · exact (rankAssign_map_fst_perm _).trans (hkeys ▸ List.Perm.refl _)
  · exact hkeys
  · rw [map_pair_fst, ← hkeys]
  · rw [rankAssign_map_snd]
    have : (roundedOf room finals).length = finals.length := by
      rw [roundedOf, List.length_map]
    rw [this]

/-- C10 witness: the amended statement at a five-player input in a room
with `targetScore = startScore` (bonus disabled), rounding `none`. -/
theorem claim_C10_witness :
    exFinals5 ≠ [] ∧ (exFinals5.map Prod.fst).Nodup ∧
    exRoomEq.rounding ∈ (["none", "round", "floor", "ceil"] : List String) ∧
    (exFinals5.length ≤ 4 ∨ exRoomEq.target_points = exRoomEq.start_points) ∧
    (∃ pts ranks rounded cash,
      settlement exRoomEq exFinals5 = some (pts, ranks, rounded, cash) ∧
      pts.map Prod.fst = exFinals5.map Prod.fst ∧
      (ranks.map Prod.fst).Perm (exFinals5.map Prod.fst) ∧
      rounded.map Prod.fst = exFinals5.map Prod.fst ∧
      cash.map Prod.fst = exFinals5.map Prod.fst ∧
      (ranks.map Prod.snd).Perm (List.range' 1 exFinals5.length)) :=
  ⟨by decide, by decide, by decide, by decide,
    claim_C10 exRoomEq exFinals5 (by decide) (by decide) (by decide)
      (by decide)⟩

/-- C6 (confirmed): on any four-player input with distinct player
identifiers, rank assignment returns a rank map over exactly the input
players whose rank values are a permutation of {1,2,3,4}, and a
strictly higher normalized score always receives a strictly lower
(better) rank number. -/
theorem claim_C6 (l : List (String × Int)) (hlen : l.length = 4)
    (hnd : (l.map Prod.fst).Nodup) :
    ((rankAssign l).map Prod.fst).Perm (l.map Prod.fst) ∧
    ((rankAssign l).map Prod.snd).Perm [1, 2, 3, 4] ∧
    ∀ pa sa pb sb ra rb, (pa, sa) ∈ l → (pb, sb) ∈ l →
      (pa, ra) ∈ rankAssign l → (pb, rb) ∈ rankAssign l →
      sb < sa → ra < rb := by
  refine ⟨rankAssign_map_fst_perm l, ?_, ?_⟩
  · rw [rankAssign_map_snd, hlen]
    have h4 : List.range' 1 4 = [1, 2, 3, 4] := rfl
    rw [h4]
  · intro pa sa pb sb ra rb hsa hsb hra hrb hba
    have hperm : (l.mergeSort scoreDesc).Perm l := List.mergeSort_perm l scoreDesc
    have hsorted : List.Pairwise (fun a b => scoreDesc a b = true)
        (l.mergeSort scoreDesc) :=
      List.sorted_mergeSort scoreDesc_trans scoreDesc_total l
    rcases mem_rankAssign.mp hra with ⟨ja, hja1, hja2⟩
    rcases mem_rankAssign.mp hrb with ⟨jb, hjb1, hjb2⟩
    have hma : (pa, ((l.mergeSort scoreDesc).get ja).2) ∈ l := by
      have h1 : (l.mergeSort scoreDesc).get ja ∈ l :=
        hperm.subset (List.get_mem _ _ _)
      rw [← hja1]
      exact h1
    have hmb : (pb, ((l.mergeSort scoreDesc).get jb).2) ∈ l := by
      have h1 : (l.mergeSort scoreDesc).get jb ∈ l :=
        hperm.subset (List.get_mem _ _ _)
      rw [← hjb1]
      exact h1
    have hsa2 : ((l.mergeSort scoreDesc).get ja).2 = sa :=
      assoc_value_unique hnd hma hsa
    have hsb2 : ((l.mergeSort scoreDesc).get jb).2 = sb :=
      assoc_value_unique hnd hmb hsb
    subst hja2 hjb2
    by_contra hcon
    have hjj : (jb : Nat) ≤ (ja : Nat) := by omega
    rcases Nat.lt_or_eq_of_le hjj with hlt2 | heq
    · have hp := (List.pairwise_iff_get.mp hsorted) jb ja hlt2
      rw [scoreDesc, decide_eq_true_eq, hsa2, hsb2] at hp
      omega
    · have hget : (l.mergeSort scoreDesc).get ja = (l.mergeSort scoreDesc).get jb := by
        congr 1
        exact Fin.ext heq.symm
      rw [hget, hsb2] at hsa2
      omega

/-- C6 witness: the rank-assignment properties at the spec's
four-player score map. -/
theorem claim_C6_witness :
    exFinals4.length = 4 ∧ (exFinals4.map Prod.fst).Nodup ∧
    (((rankAssign exFinals4).map Prod.fst).Perm (exFinals4.map Prod.fst) ∧
     ((rankAssign exFinals4).map Prod.snd).Perm [1, 2, 3, 4] ∧
     ∀ pa sa pb sb ra rb, (pa, sa) ∈ exFinals4 → (pb, sb) ∈ exFinals4 →
       (pa, ra) ∈ rankAssign exFinals4 → (pb, rb) ∈ rankAssign exFinals4 →
       sb < sa → ra < rb) :=
  ⟨by decide, by decide, claim_C6 exFinals4 (by decide) (by decide)⟩

/-! ### Aggregation claims -/

theorem summaryDesc_trans : ∀ (a b c : SummaryRow),
    summaryDesc a b = true → summaryDesc b c = true →
    summaryDesc a c = true := by
  intro a b c hab hbc
  simp only [summaryDesc, decide_eq_true_eq] at hab hbc ⊢
  rcases hab with h | ⟨h1, h2⟩ <;> rcases hbc with g | ⟨g1, g2⟩
  · left; linarith
  · left; linarith
  · left; linarith
  · right; exact ⟨h1.trans g1, le_trans g2 h2⟩

theorem summaryDesc_total : ∀ (a b : SummaryRow),
    (summaryDesc a b || summaryDesc b a) = true := by
  intro a b
  simp only [summaryDesc, Bool.or_eq_true, decide_eq_true_eq]
  rcases lt_trichotomy a.ptSum b.ptSum with h | h | h
  · right; left; exact h
  · rcases le_total b.cashSum a.cashSum with hc | hc
    · left; right; exact ⟨h, hc⟩
    · right; right; exact ⟨h.symm, hc⟩
  · left; left; exact h

theorem range'_map_succ : ∀ (n i : Nat),
    (List.range' i n).map (fun m => m + 1) = List.range' (i + 1) n := by
  intro n
  induction n with
  | zero => intro i; rfl
  | succ k ih => intro i; simp [List.range'_succ, ih]

/-- C8 (counterexample): two players tied on both ranking metrics
(equal cumulative points and equal cumulative cash) receive the
distinct display ranks 1 and 2, not the same rank: the rank column is
ordinal, not dense. -/
theorem claim_C8_counterexample :
    (summaryRanked exRowsTied).map
        (fun p => (p.1, p.2.name, p.2.ptSum, p.2.cashSum))
      = [(1, "A", 10, 1000), (2, "B", 10, 1000)] := by
  with_unfolding_all decide

/-- C8 (amended): the summary is sorted by cumulative points (`pt合計`)
descending with cumulative cash (`収支合計`) descending as tie-break,
and the display rank column is the 1-based ordinal position in the
sorted sequence (`range(1, len+1)`) — players tied on both metrics
still receive distinct consecutive ranks. -/
theorem claim_C8 (rows : List ResultRow) :
    List.Pairwise (fun a b : SummaryRow =>
      b.ptSum < a.ptSum ∨ (a.ptSum = b.ptSum ∧ b.cashSum ≤ a.cashSum))
      (summarySorted rows) ∧
    (summaryRanked rows).map Prod.fst
      = List.range' 1 (summarySorted rows).length := by
  constructor
  · have hp := List.sorted_mergeSort summaryDesc_trans summaryDesc_total
      (summaries rows)
    refine List.Pairwise.imp ?_ hp
    intro a b h
    rwa [summaryDesc, decide_eq_true_eq] at h
  · rw [summaryRanked, map_pair_fst]
    have h1 : (idxFrom 0 (summarySorted rows)).map (fun p => p.1 + 1)
        = ((idxFrom 0 (summarySorted rows)).map Prod.fst).map
            (fun m => m + 1) := by
      rw [List.map_map]
      rfl
    rw [h1, idxFrom_map_fst, range'_map_succ]

theorem countP_rank_partition : ∀ (l : List ResultRow),
    (∀ r ∈ l, 1 ≤ r.rank ∧ r.rank ≤ 4) →
    l.countP (fun r => decide (r.rank = 1)) +
    l.countP (fun r => decide (r.rank = 2)) +
    l.countP (fun r => decide (r.rank = 3)) +
    l.countP (fun r => decide (r.rank = 4)) = l.length := by
  intro l
  induction l with
  | nil => intro _; rfl
  | cons x xs ih =>
    intro h
    have hx := h x (List.mem_cons_self _ _)
    have hxs := ih (fun r hr => h r (List.mem_cons_of_mem _ hr))
    simp only [List.countP_cons, List.length_cons]
    have hc : x.rank = 1 ∨ x.rank = 2 ∨ x.rank = 3 ∨ x.rank = 4 := by omega
    rcases hc with h1 | h1 | h1 | h1 <;> simp [h1] <;> omega

/-- C9 (confirmed): when every aggregated result record carries a rank
in 1..4, each player's four per-rank counts sum to that player's total
round count. -/
theorem claim_C9 (rows : List ResultRow) (name : String)
    (h : ∀ r ∈ rows, 1 ≤ r.rank ∧ r.rank ≤ 4) :
    (summaryRow rows name).c1 + (summaryRow rows name).c2 +
    (summaryRow rows name).c3 + (summaryRow rows name).c4
      = (summaryRow rows name).count := by
  have hg : ∀ r ∈ rowsOf rows name, 1 ≤ r.rank ∧ r.rank ≤ 4 :=
    fun r hr => h r (List.mem_of_mem_filter hr)
  simp only [summaryRow]
  exact countP_rank_partition _ hg

/-- C9 witness: the rank-count invariant at the two tied example rows,
player A. -/
theorem claim_C9_witness :
    (∀ r ∈ exRowsTied, 1 ≤ r.rank ∧ r.rank ≤ 4) ∧
    (summaryRow exRowsTied "A").c1 + (summaryRow exRowsTied "A").c2 +
    (summaryRow exRowsTied "A").c3 + (summaryRow exRowsTied "A").c4
      = (summaryRow exRowsTied "A").count :=
  ⟨by decide, claim_C9 exRowsTied "A" (by decide)⟩
